import Mathlib

/-!
Verification of the ChemTorch rate module.

This file shallowly embeds the two Python source files of the repository:

* `src/src/rates.py` — modelled in namespace `ChemTorch` below: the
  constants `frac`, `w`, `alb`, the table `reaction_type`, the functions
  `read_rate_file`, `initialise_abs`, `calculate_rates`, the four rate laws
  `Arrhenius_rate`, `CP_rate`, `CR_rate`, `photodissociation_rate`, and
  `retrieve_COshielding`.
* `src/rates.py` — modelled in namespace `ChemTorch.Root`: its
  `read_rate_file` and `calculating_rates`.

File I/O is factored out: a rate file is passed as a list of already
colon-split lines.  A field of a line is abstracted by its raw text together
with the outcomes of Python's `int()` and `float()` builtins on that text
(those builtins are the only part not re-implemented character by
character); `float` values are modelled as real numbers.  Python run-time
exceptions (`ValueError`, `IndexError`) are modelled with `Except`.
-/

namespace ChemTorch

/-- Python run-time errors the modelled code can raise. -/
inductive Err where
  | valueError : Err
  | indexError : Err
deriving DecidableEq, Repr

/-- One colon-delimited field of a rate-file line, abstracted by its raw text
together with the outcome of Python's `int()` (`asInt`) and `float()`
(`asFloat`) builtins applied to that text. -/
structure Field where
  raw : String
  asInt : Option Int
  asFloat : Option ℝ

/-- A line of the rate file after `line.split(':')`: the split always yields
at least one field, so a line is its first field (`line[0]`) paired with the
remaining fields (`line[1:]`). -/
abbrev Line := Field × List Field

/-- The Python `rates` dict: association list preserving insertion order
(Python 3.7 dict semantics). -/
abbrev Dict := List (Int × List Field)

/-- The empty string (named so that string literals appear only after `:=`). -/
def emptyStr : String := ""

def tagAD : String := "AD"
def tagCD : String := "CD"
def tagCE : String := "CE"
def tagCP : String := "CP"
def tagCR : String := "CR"
def tagDR : String := "DR"
def tagIN : String := "IN"
def tagMN : String := "MN"
def tagNN : String := "NN"
def tagPH : String := "PH"
def tagRA : String := "RA"
def tagREA : String := "REA"
def tagRR : String := "RR"
def tagIP : String := "IP"
def tagAP : String := "AP"
def tagXX : String := "XX"

/-- The `reaction_type` dict of `src/src/rates.py` (the 15 known tags). -/
def reaction_type : List (String × String) :=
  [(tagAD, r"AD (associative detachment)"),
   (tagCD, r"CD (collisional dissociation)"),
   (tagCE, r"CE (charge exchange)"),
   (tagCP, r"CP = CRP (cosmic-ray proton)"),
   (tagCR, r"CR = CRPHOT (cosmic-ray photon)"),
   (tagDR, r"DR (dissociative recombination)"),
   (tagIN, r"IN (ion-neutral)"),
   (tagMN, r"MN (mutual neutralisation)"),
   (tagNN, r"NN (neutral-neutral)"),
   (tagPH, r"PH (photoprocess)"),
   (tagRA, r"RA (radiative association)"),
   (tagREA, r"REA (radiative electron attachement)"),
   (tagRR, r"RR (radiative rec ombination)"),
   (tagIP, r"IP (internal photon)"),
   (tagAP, r"AP (accompaning photon)")]

/-- Constant `frac = 1/300.` -/
noncomputable def frac : ℝ := 1 / 300

/-- Constant `w = 0.5` (grain albedo). -/
noncomputable def w : ℝ := 0.5

/-- Constant `alb = 1./(1.-w)`. -/
noncomputable def alb : ℝ := 1 / (1 - w)

/-- Rate law `Arrhenius_rate(α, β, γ, T) = α*(T*frac)**β*np.exp(-γ/T)`. -/
noncomputable def Arrhenius_rate (α β γ T : ℝ) : ℝ :=
  α * (T * frac) ^ β * Real.exp (-γ / T)

/-- Rate law `CP_rate(α) = α`. -/
def CP_rate (α : ℝ) : ℝ := α

/-- Rate law `CR_rate(α, β, γ, T) = α * (T*frac)**β * (γ)*alb`. -/
noncomputable def CR_rate (α β γ T : ℝ) : ℝ :=
  α * (T * frac) ^ β * γ * alb

/-- Rate law `photodissociation_rate(α, γ, δ, Av) = α * δ * np.exp(-γ * Av)`. -/
noncomputable def photodissociation_rate (α γ δ Av : ℝ) : ℝ :=
  α * δ * Real.exp (-γ * Av)

/-- Python list indexing `xs[i]` with a non-negative index: raises
`IndexError` when out of range. -/
def listIdx {A : Type} (xs : List A) (i : Nat) : Except Err A :=
  match xs.get? i with
  | some a => .ok a
  | none => .error .indexError

/-- Python `float(field)`: raises `ValueError` when the text does not parse. -/
def pyFloat (f : Field) : Except Err ℝ :=
  match f.asFloat with
  | some x => .ok x
  | none => .error .valueError

/-- Python `float(fields[i])`: index, then parse (the evaluation order of
`float(rates[nb][i])`). -/
def floatAt (fs : List Field) (i : Nat) : Except Err ℝ :=
  match listIdx fs i with
  | .error er => .error er
  | .ok f => pyFloat f

/-- Numpy 1-D assignment `xs[i] = v` for a possibly negative integer index:
negative indices wrap once, anything else raises `IndexError`. -/
def npSet (xs : List ℝ) (i : Int) (v : ℝ) : Except Err (List ℝ) :=
  if 0 ≤ i ∧ i < (xs.length : Int) then .ok (xs.set i.toNat v)
  else if -(xs.length : Int) ≤ i ∧ i < 0 then
    .ok (xs.set ((xs.length : Int) + i).toNat v)
  else .error .indexError

/-- Python dict assignment `rates[k] = v`: overwrite in place when the key is
present (keeping the original insertion position), append otherwise. -/
def dictInsert (d : Dict) (k : Int) (v : List Field) : Dict :=
  if k ∈ d.map Prod.fst then
    d.map (fun p => if p.1 = k then (k, v) else p)
  else d ++ [(k, v)]

/-- First loop of `read_rate_file`:
`for i in range(len(lines)): rates[int(line[0])] = line[1:]`. -/
def buildDict : List Line → Dict → Except Err Dict
  | [], d => .ok d
  | l :: ls, d =>
    match l.1.asInt with
    | none => .error .valueError
    | some nb => buildDict ls (dictInsert d nb l.2)

/-- The four parallel outputs of `read_rate_file` (src/src copy): the `type`
list and the numpy arrays `α`, `β`, `γ`. -/
structure Parsed where
  type : List String
  α : List ℝ
  β : List ℝ
  γ : List ℝ

/-- One iteration of the second loop of `read_rate_file` (src/src copy):
`type.append(str(rates[nb][0])); α[nb-1] = float(rates[nb][8]);
β[nb-1] = float(rates[nb][9]); γ[nb-1] = float(rates[nb][10])`. -/
def fillStep (st : Parsed) (e : Int × List Field) : Except Err Parsed :=
  match listIdx e.2 0 with
  | .error er => .error er
  | .ok f0 =>
    match floatAt e.2 8 with
    | .error er => .error er
    | .ok a =>
      match npSet st.α (e.1 - 1) a with
      | .error er => .error er
      | .ok α' =>
        match floatAt e.2 9 with
        | .error er => .error er
        | .ok b =>
          match npSet st.β (e.1 - 1) b with
          | .error er => .error er
          | .ok β' =>
            match floatAt e.2 10 with
            | .error er => .error er
            | .ok g =>
              match npSet st.γ (e.1 - 1) g with
              | .error er => .error er
              | .ok γ' => .ok ⟨st.type ++ [f0.raw], α', β', γ'⟩

/-- Second loop of `read_rate_file` (src/src copy): `for nb in rates: ...`,
iterating the dict in insertion order. -/
def fillLoop : Dict → Parsed → Except Err Parsed
  | [], st => .ok st
  | e :: es, st =>
    match fillStep st e with
    | .error er => .error er
    | .ok st₁ => fillLoop es st₁

/-- Function `read_rate_file` of `src/src/rates.py`, with the file contents passed in
place of the file path.  Returns the dict together with the `type`/`α`/`β`/`γ`
sequences (`α = np.zeros(len(rates))` etc. before the second loop). -/
def read_rate_file (file : List Line) : Except Err (Dict × Parsed) :=
  match buildDict file [] with
  | .error er => .error er
  | .ok d =>
    match fillLoop d ⟨[], List.replicate d.length 0, List.replicate d.length 0,
        List.replicate d.length 0⟩ with
    | .error er => .error er
    | .ok st => .ok (d, st)

/-- Body of one iteration of the dispatch loop of `calculate_rates`:
`k[i]` as a function of `type[i]` and the arrays.  The array reads `α[i]`,
`β[i]`, `γ[i]` are the Python list/array indexings of the source (in range
whenever `i < len(type)`, since `read_rate_file` sizes all four outputs to
`len(rates)`). -/
noncomputable def rate_entry (T δ Av : ℝ) (st : Parsed) (i : Nat) : Except Err ℝ :=
  match listIdx st.type i with
  | .error er => .error er
  | .ok t =>
    if t = tagCP then
      match listIdx st.α i with
      | .error er => .error er
      | .ok a => .ok (CP_rate a)
    else if t = tagCR then
      match listIdx st.α i, listIdx st.β i, listIdx st.γ i with
      | .error er, _, _ => .error er
      | _, .error er, _ => .error er
      | _, _, .error er => .error er
      | .ok a, .ok b, .ok g => .ok (CR_rate a b g T)
    else if t = tagPH then
      match listIdx st.α i, listIdx st.γ i with
      | .error er, _ => .error er
      | _, .error er => .error er
      | .ok a, .ok g => .ok (photodissociation_rate a g δ Av)
    else if t = tagIP then .ok 0
    else if t = tagAP then .ok 0
    else
      match listIdx st.α i, listIdx st.β i, listIdx st.γ i with
      | .error er, _, _ => .error er
      | _, .error er, _ => .error er
      | _, _, .error er => .error er
      | .ok a, .ok b, .ok g => .ok (Arrhenius_rate a b g T)

/-- Effectful map used to run the dispatch loop (`k = np.zeros(len(type))`
followed by in-place writes is the same as collecting the entries in order,
aborting on the first raised exception). -/
def mapExcept {A B : Type} (f : A → Except Err B) : List A → Except Err (List B)
  | [] => .ok []
  | x :: xs =>
    match f x with
    | .error er => .error er
    | .ok y =>
      match mapExcept f xs with
      | .error er => .error er
      | .ok ys => .ok (y :: ys)

/-- The dispatch loop of `calculate_rates`: `for i in range(len(type))`. -/
noncomputable def calc_loop (T δ Av : ℝ) (st : Parsed) : Except Err (List ℝ) :=
  mapExcept (rate_entry T δ Av st) (List.range st.type.length)

/-- Function `calculate_rates(T, δ, Av, rate)` of `src/src/rates.py`, with the file
contents passed in place of the file identifier. -/
noncomputable def calculate_rates (T δ Av : ℝ) (file : List Line) :
    Except Err (List ℝ) :=
  match read_rate_file file with
  | .error er => .error er
  | .ok p => calc_loop T δ Av p.2

/-- The per-reaction rate value that the dispatch of `calculate_rates`
assigns, as a pure function of the parsed table and the conditions: `α[i]`
under `CP`, the CR law under `CR`, the photodissociation law under `PH`,
exactly `0` under `IP`/`AP`, and the Arrhenius law otherwise. -/
noncomputable def rateFormula (T δ Av : ℝ) (st : Parsed) (i : Nat) : ℝ :=
  if st.type.getD i emptyStr = tagCP then CP_rate (st.α.getD i 0)
  else if st.type.getD i emptyStr = tagCR then
    CR_rate (st.α.getD i 0) (st.β.getD i 0) (st.γ.getD i 0) T
  else if st.type.getD i emptyStr = tagPH then
    photodissociation_rate (st.α.getD i 0) (st.γ.getD i 0) δ Av
  else if st.type.getD i emptyStr = tagIP then 0
  else if st.type.getD i emptyStr = tagAP then 0
  else Arrhenius_rate (st.α.getD i 0) (st.β.getD i 0) (st.γ.getD i 0) T

/-- A dict entry's field list has everything the second loop of
`read_rate_file` reads: a field at offset 0, and fields at offsets 8, 9, 10
whose text parses as floating point. -/
def entryOk (fs : List Field) : Prop :=
  (∃ f, listIdx fs 0 = .ok f) ∧ (∃ a, floatAt fs 8 = .ok a) ∧
    (∃ b, floatAt fs 9 = .ok b) ∧ (∃ g, floatAt fs 10 = .ok g)

/-- The type tag of a `line[1:]` field list: the raw text of its field 0. -/
def rawAt (fs : List Field) : String :=
  ((fs.get? 0).map Field.raw).getD emptyStr

namespace Root

/-- The four parallel outputs of the `read_rate_file` copy in `src/rates.py`:
there all four are plain Python lists built by `append`, in dict order. -/
structure Parsed where
  type : List String
  α : List ℝ
  β : List ℝ
  γ : List ℝ

/-- One iteration of the second loop of the `src/rates.py` copy:
`type.append((rates[rate][0])); α.append(float(rates[rate][8]));
β.append(float(rates[rate][9])); γ.append(float(rates[rate][10]))`. -/
def fillStep (st : Parsed) (e : Int × List Field) : Except Err Parsed :=
  match listIdx e.2 0 with
  | .error er => .error er
  | .ok f0 =>
    match floatAt e.2 8 with
    | .error er => .error er
    | .ok a =>
      match floatAt e.2 9 with
      | .error er => .error er
      | .ok b =>
        match floatAt e.2 10 with
        | .error er => .error er
        | .ok g =>
          .ok ⟨st.type ++ [f0.raw], st.α ++ [a], st.β ++ [b], st.γ ++ [g]⟩

/-- Second loop of the `src/rates.py` copy: `for rate in rates: ...`. -/
def fillLoop : Dict → Parsed → Except Err Parsed
  | [], st => .ok st
  | e :: es, st =>
    match fillStep st e with
    | .error er => .error er
    | .ok st₁ => fillLoop es st₁

/-- Function `read_rate_file` of `src/rates.py` (hardcoded path factored out as the
file contents).  Its first loop `rates[int(line[0])] = line[1:]` is letter
for letter the one of the `src/src` copy, so the model shares `buildDict`. -/
def read_rate_file (file : List Line) : Except Err (Dict × Parsed) :=
  match buildDict file [] with
  | .error er => .error er
  | .ok d =>
    match fillLoop d ⟨[], [], [], []⟩ with
    | .error er => .error er
    | .ok st => .ok (d, st)

/-- Function `calculating_rates(T, δ, Av, w)` of `src/rates.py`: reads the rate file,
allocates `K = np.zeros(len(type))` and returns `K` unchanged. -/
def calculating_rates (T δ Av w : ℝ) (file : List Line) :
    Except Err (List ℝ) :=
  match read_rate_file file with
  | .error er => .error er
  | .ok p => .ok (List.replicate p.2.type.length 0)

end Root

/-- Function `initialise_abs` of `src/src/rates.py`, with `read_specs_file` factored
out: `specs` is the non-conserved species-name list, `parnt` the parent
table `parnt.T` presented as its list of (name, abundance) columns (the
string-to-float conversion numpy performs on assignment is abstracted by
storing the abundance as a real), `consv` the conserved species names.
The nested loop leaves `abs[i]` at the value of the last matching parent
column, or `0.0` if none matches; `abs_consv` is `np.zeros(len(consv))`
with `abs_consv[1] = 0.5`. -/
def initialise_abs (specs : List String) (parnt : List (String × ℝ))
    (consv : List String) : Except Err (List ℝ × List ℝ × List String) :=
  let ab := specs.map (fun s =>
    parnt.foldl (fun acc p => if s = p.1 then p.2 else acc) 0)
  match npSet (List.replicate consv.length 0) 1 0.5 with
  | .error er => .error er
  | .ok cv => .ok (ab, cv, specs)

/-- Numpy `np.where(axis == target)` followed by `idx[0]`: the first index at which
the axis holds exactly `target`; `none` models the `IndexError` raised by
`idx[0]` when there is no match. -/
def npWhereFirst {F : Type} [DecidableEq F] (target : F) : List F → Option Nat
  | [] => none
  | x :: xs => if x = target then some 0 else (npWhereFirst target xs).map (· + 1)

/-- Function `retrieve_COshielding(N_CO, N_H2, shielding, CO, H2)` of
`src/src/rates.py`: exact-match lookup of the two axis values, then the grid
cell `shielding[idx_H2, idx_CO]`; `none` models the raised `IndexError`
(missing axis value, or an out-of-range grid access). -/
def retrieve_COshielding {F : Type} [DecidableEq F] (N_CO N_H2 : F)
    (shielding : List (List F)) (CO H2 : List F) : Option F :=
  match npWhereFirst N_CO CO with
  | none => none
  | some idx_CO =>
    match npWhereFirst N_H2 H2 with
    | none => none
    | some idx_H2 =>
      match shielding.get? idx_H2 with
      | none => none
      | some row => row.get? idx_CO

/-- Option-valued traversal, used only to state hypotheses about files whose
fields all parse. -/
def mapOpt {A B : Type} (f : A → Option B) : List A → Option (List B)
  | [] => some []
  | x :: xs =>
    match f x, mapOpt f xs with
    | some y, some ys => some (y :: ys)
    | _, _ => none

/-- Test fixture: a purely textual field (parses neither as int nor float). -/
def sField (s : String) : Field := ⟨s, none, none⟩

/-- Test fixture: a numeric field with float value `x`. -/
def fField (x : ℝ) : Field := ⟨emptyStr, none, some x⟩

/-- Test fixture: an integer index field. -/
def iField (n : Int) : Field := ⟨emptyStr, some n, none⟩

/-- Test fixture: the `line[1:]` tail of a UMIST-style line — type tag,
seven species fields, then `α`, `β`, `γ` at offsets 8, 9, 10. -/
def mkRest (ty : String) (a b g : ℝ) : List Field :=
  [sField ty, sField emptyStr, sField emptyStr, sField emptyStr,
   sField emptyStr, sField emptyStr, sField emptyStr, sField emptyStr,
   fField a, fField b, fField g]

/-- Test fixture: a full rate-file line with index `idx`. -/
def mkLine (idx : Int) (ty : String) (a b g : ℝ) : Line :=
  (iField idx, mkRest ty a b g)

/-- Synthetic rate table with one reaction of each of CP, CR, PH, IP, AP and
a generic two-body type (NN), indices 1..6 in order. -/
def synthFile : List Line :=
  [mkLine 1 tagCP 3 0 0,
   mkLine 2 tagCR 3 2 5,
   mkLine 3 tagPH 5 0 7,
   mkLine 4 tagIP 1 1 1,
   mkLine 5 tagAP 2 2 2,
   mkLine 6 tagNN 11 13 17]

/-- The value `read_rate_file` returns on `synthFile`. -/
def synthParsed : Dict × Parsed :=
  ([(1, mkRest tagCP 3 0 0), (2, mkRest tagCR 3 2 5), (3, mkRest tagPH 5 0 7),
    (4, mkRest tagIP 1 1 1), (5, mkRest tagAP 2 2 2), (6, mkRest tagNN 11 13 17)],
   ⟨[tagCP, tagCR, tagPH, tagIP, tagAP, tagNN],
    [3, 3, 5, 1, 2, 11], [0, 2, 0, 1, 2, 13], [0, 5, 7, 1, 2, 17]⟩)

/-- A well-formed two-line rate file whose lines are NOT in index order: the
index-2 line (tag PH) comes first, the index-1 line (tag CP) second. -/
def cexFile : List Line :=
  [mkLine 2 tagPH 7 0 1,
   mkLine 1 tagCP 3 0 0]

/-- The value `read_rate_file` returns on `cexFile`: `α`, `β`, `γ` are dense
and index-ordered, but `type` is in file-line order — `["PH", "CP"]`, not
`["CP", "PH"]`. -/
def cexParsed : Dict × Parsed :=
  ([(2, mkRest tagPH 7 0 1), (1, mkRest tagCP 3 0 0)],
   ⟨[tagPH, tagCP], [3, 7], [0, 0], [0, 1]⟩)

/-- A rate file in which index 1 appears on two lines. -/
def dupFile : List Line :=
  [mkLine 1 tagCP 3 0 0,
   mkLine 1 tagNN 4 0 0]

/-- The value `read_rate_file` returns on `dupFile`: no error — the second
index-1 line silently overwrites the first. -/
def dupParsed : Dict × Parsed :=
  ([(1, mkRest tagNN 4 0 0)], ⟨[tagNN], [4], [0], [0]⟩)

/-- A one-line rate file whose type tag `XX` is none of the 15 known tags. -/
def xxFile : List Line := [mkLine 1 tagXX 11 0 0]

/-- The value `read_rate_file` returns on `xxFile`. -/
def xxParsed : Dict × Parsed :=
  ([(1, mkRest tagXX 11 0 0)], ⟨[tagXX], [11], [0], [0]⟩)

/-- A one-line CP rate file with `α = 3`, used to compare the two copies. -/
def cpFile : List Line := [mkLine 1 tagCP 3 0 0]

/-- The value `read_rate_file` returns on `cpFile`. -/
def cpParsed : Dict × Parsed :=
  ([(1, mkRest tagCP 3 0 0)], ⟨[tagCP], [3], [0], [0]⟩)

/-- A rate file whose single line has a non-integer first field. -/
def badIntFile : List Line := [(sField tagXX, mkRest tagCP 1 0 0)]

/-- A rate file whose single line has too few colon-delimited fields (only
the index and the type tag). -/
def shortFile : List Line := [(iField 1, [sField tagCP])]

/-- Species-name fixtures for the abundance-initialisation claims. -/
def spH : String := "H"

def spCO : String := "CO"

def spHe : String := "He"

def spE : String := r"e-"

def spH2 : String := "H2"

/-! ## List helper lemmas -/

theorem get?_set_self {A : Type} :
    ∀ (l : List A) (i : Nat) (a : A), i < l.length → (l.set i a).get? i = some a
  | [], i, a, h => by simp at h
  | _ :: _, 0, a, _ => rfl
  | _ :: xs, i + 1, a, h =>
    get?_set_self xs i a (by simpa using Nat.lt_of_succ_lt_succ h)

theorem get?_set_other {A : Type} :
    ∀ (l : List A) (i j : Nat) (a : A), i ≠ j → (l.set i a).get? j = l.get? j
  | [], _, _, _, _ => rfl
  | _ :: _, 0, 0, _, h => absurd rfl h
  | _ :: _, 0, _ + 1, _, _ => rfl
  | _ :: _, _ + 1, 0, _, _ => rfl
  | _ :: xs, i + 1, j + 1, a, h =>
    get?_set_other xs i j a (fun hij => h (by rw [hij]))

theorem get?_zip {A B : Type} :
    ∀ (l₁ : List A) (l₂ : List B) (k : Nat) (a : A) (b : B),
      l₁.get? k = some a → l₂.get? k = some b →
      (l₁.zip l₂).get? k = some (a, b) := by
  intro l₁
  induction l₁ with
  | nil => intro l₂ k a b h; simp at h
  | cons x xs ih =>
    intro l₂ k a b h₁ h₂
    cases l₂ with
    | nil => simp at h₂
    | cons y ys =>
      cases k with
      | zero =>
        injection h₁ with h₁
        injection h₂ with h₂
        simp [List.zip_cons_cons, h₁, h₂]
      | succ k =>
        have := ih ys k a b h₁ h₂
        simpa [List.zip_cons_cons] using this

/-! ## mapOpt lemmas -/

theorem mapOpt_some_length {A B : Type} (f : A → Option B) :
    ∀ (l : List A) (xs : List B), mapOpt f l = some xs → xs.length = l.length := by
  intro l
  induction l with
  | nil => intro xs h; simp [mapOpt] at h; simp [← h]
  | cons x t ih =>
    intro xs h
    cases hfx : f x with
    | none => simp [mapOpt, hfx] at h
    | some y =>
      cases hm : mapOpt f t with
      | none => simp [mapOpt, hfx, hm] at h
      | some ys =>
        simp [mapOpt, hfx, hm] at h
        simp [← h, ih ys hm]

theorem mapOpt_some_get? {A B : Type} (f : A → Option B) :
    ∀ (l : List A) (xs : List B), mapOpt f l = some xs →
      ∀ (k : Nat) (a : A), l.get? k = some a → xs.get? k = f a := by
  intro l
  induction l with
  | nil => intro xs _ k a h; simp at h
  | cons x t ih =>
    intro xs h k a hget
    cases hfx : f x with
    | none => simp [mapOpt, hfx] at h
    | some y =>
      cases hm : mapOpt f t with
      | none => simp [mapOpt, hfx, hm] at h
      | some ys =>
        simp [mapOpt, hfx, hm] at h
        cases k with
        | zero =>
          injection hget with hget
          simp [← h, ← hget, hfx]
        | succ k =>
          have := ih ys hm k a hget
          simp [← h]
          simpa using this

/-! ## npSet lemmas -/

theorem npSet_pos (xs : List ℝ) (i : Int) (v : ℝ) (h0 : 0 ≤ i)
    (h1 : i < (xs.length : Int)) :
    npSet xs i v = .ok (xs.set i.toNat v) := by
  unfold npSet
  rw [if_pos ⟨h0, h1⟩]

theorem npSet_ok_length {xs ys : List ℝ} {i : Int} {v : ℝ}
    (h : npSet xs i v = .ok ys) : ys.length = xs.length := by
  unfold npSet at h
  split at h
  · injection h with h'; rw [← h']; simp
  · split at h
    · injection h with h'; rw [← h']; simp
    · cases h

/-! ## buildDict lemmas -/

theorem dictInsert_fresh (d : Dict) (k : Int) (v : List Field)
    (h : k ∉ d.map Prod.fst) : dictInsert d k v = d ++ [(k, v)] := by
  unfold dictInsert
  rw [if_neg h]

theorem buildDict_er (file : List Line)
    (hbad : ∃ l ∈ file, l.1.asInt = none) :
    ∀ d, buildDict file d = .error .valueError := by
  induction file with
  | nil => simp at hbad
  | cons l ls ih =>
    intro d
    cases hl : l.1.asInt with
    | none => simp [buildDict, hl]
    | some nb =>
      rcases hbad with ⟨l', hl', hnone⟩
      rcases List.mem_cons.mp hl' with h | h
      · rw [h] at hnone; rw [hl] at hnone; cases hnone
      · simp only [buildDict, hl]
        exact ih ⟨l', h, hnone⟩ _

theorem buildDict_nodup :
    ∀ (file : List Line) (idxs : List Int),
      mapOpt (fun l => l.1.asInt) file = some idxs → idxs.Nodup →
      ∀ d : Dict, (∀ n ∈ idxs, n ∉ d.map Prod.fst) →
      buildDict file d = .ok (d ++ (file.zip idxs).map (fun p => (p.2, p.1.2))) := by
  intro file
  induction file with
  | nil =>
    intro idxs h _ d _
    simp [mapOpt] at h
    simp [buildDict, ← h]
  | cons l ls ih =>
    intro idxs h hnodup d hfresh
    cases hl : l.1.asInt with
    | none => simp [mapOpt, hl] at h
    | some n =>
      cases hm : mapOpt (fun l => l.1.asInt) ls with
      | none => simp [mapOpt, hl, hm] at h
      | some ns =>
        simp [mapOpt, hl, hm] at h
        rw [← h] at hnodup hfresh
        have hn : n ∉ ns ∧ ns.Nodup := List.nodup_cons.mp hnodup
        simp only [buildDict, hl]
        rw [dictInsert_fresh d n l.2 (hfresh n (by simp))]
        have hfresh' : ∀ m ∈ ns, m ∉ (d ++ [(n, l.2)]).map Prod.fst := by
          intro m hmns
          simp only [List.map_append, List.mem_append]
          intro hcon
          rcases hcon with hcon | hcon
          · exact hfresh m (by simp [hmns]) hcon
          · simp at hcon
            rw [hcon] at hmns
            exact hn.1 hmns
        rw [ih ns hm hn.2 (d ++ [(n, l.2)]) hfresh']
        rw [← h]
        simp [List.zip_cons_cons]

/-! ## fillStep / fillLoop lemmas -/

theorem listIdx_ok_of_lt {A : Type} (xs : List A) (i : Nat) (h : i < xs.length)
    (d : A) : listIdx xs i = .ok (xs.getD i d) := by
  unfold listIdx
  cases hx : xs.get? i with
  | none => rw [List.get?_eq_none] at hx; omega
  | some a =>
    have hd : xs.getD i d = a := by
      rw [List.getD_eq_get?, hx]
      rfl
    rw [hd]

theorem fillStep_ok (st : Parsed) (e : Int × List Field) (f0 : Field) (a b g : ℝ)
    (h0 : listIdx e.2 0 = .ok f0) (h8 : floatAt e.2 8 = .ok a)
    (h9 : floatAt e.2 9 = .ok b) (h10 : floatAt e.2 10 = .ok g)
    (hβ : st.β.length = st.α.length) (hγ : st.γ.length = st.α.length)
    (hlo : 1 ≤ e.1) (hhi : e.1 ≤ (st.α.length : Int)) :
    fillStep st e = .ok ⟨st.type ++ [f0.raw], st.α.set (e.1 - 1).toNat a,
      st.β.set (e.1 - 1).toNat b, st.γ.set (e.1 - 1).toNat g⟩ := by
  have hα' : npSet st.α (e.1 - 1) a = .ok (st.α.set (e.1 - 1).toNat a) :=
    npSet_pos _ _ _ (by omega) (by omega)
  have hβ' : npSet st.β (e.1 - 1) b = .ok (st.β.set (e.1 - 1).toNat b) :=
    npSet_pos _ _ _ (by omega) (by rw [hβ]; omega)
  have hγ' : npSet st.γ (e.1 - 1) g = .ok (st.γ.set (e.1 - 1).toNat g) :=
    npSet_pos _ _ _ (by omega) (by rw [hγ]; omega)
  simp [fillStep, h0, h8, h9, h10, hα', hβ', hγ']

theorem fillStep_ok_inv {st st₁ : Parsed} {e : Int × List Field}
    (h : fillStep st e = .ok st₁) :
    ∃ f0 a b g α' β' γ',
      listIdx e.2 0 = .ok f0 ∧ floatAt e.2 8 = .ok a ∧ floatAt e.2 9 = .ok b ∧
      floatAt e.2 10 = .ok g ∧ npSet st.α (e.1 - 1) a = .ok α' ∧
      npSet st.β (e.1 - 1) b = .ok β' ∧ npSet st.γ (e.1 - 1) g = .ok γ' ∧
      st₁ = ⟨st.type ++ [f0.raw], α', β', γ'⟩ := by
  unfold fillStep at h
  cases h0 : listIdx e.2 0 with
  | error er => simp [h0] at h
  | ok f0 =>
  cases h8 : floatAt e.2 8 with
  | error er => simp [h0, h8] at h
  | ok a =>
  cases hα : npSet st.α (e.1 - 1) a with
  | error er => simp [h0, h8, hα] at h
  | ok α' =>
  cases h9 : floatAt e.2 9 with
  | error er => simp [h0, h8, hα, h9] at h
  | ok b =>
  cases hβ : npSet st.β (e.1 - 1) b with
  | error er => simp [h0, h8, hα, h9, hβ] at h
  | ok β' =>
  cases h10 : floatAt e.2 10 with
  | error er => simp [h0, h8, hα, h9, hβ, h10] at h
  | ok g =>
  cases hγ : npSet st.γ (e.1 - 1) g with
  | error er => simp [h0, h8, hα, h9, hβ, h10, hγ] at h
  | ok γ' =>
  simp only [h0, h8, hα, h9, hβ, h10, hγ, Except.ok.injEq] at h
  exact ⟨f0, a, b, g, α', β', γ', rfl, rfl, rfl, rfl, hα, hβ, hγ, h.symm⟩

theorem fillLoop_ok_lengths :
    ∀ (entries : Dict) (st st' : Parsed), fillLoop entries st = .ok st' →
      st'.α.length = st.α.length ∧ st'.β.length = st.β.length ∧
      st'.γ.length = st.γ.length ∧
      st'.type.length = st.type.length + entries.length := by
  intro entries
  induction entries with
  | nil =>
    intro st st' h
    injection h with h'
    rw [← h']
    simp
  | cons e es ih =>
    intro st st' h
    unfold fillLoop at h
    cases hstep : fillStep st e with
    | error er => simp [hstep] at h
    | ok st₁ =>
      simp only [hstep] at h
      obtain ⟨h1, h2, h3, h4⟩ := ih st₁ st' h
      obtain ⟨f0, a, b, g, α', β', γ', _, _, _, _, hα, hβ, hγ, hshape⟩ :=
        fillStep_ok_inv hstep
      have lα := npSet_ok_length hα
      have lβ := npSet_ok_length hβ
      have lγ := npSet_ok_length hγ
      rw [hshape] at h1 h2 h3 h4
      simp at h1 h2 h3 h4
      refine ⟨by omega, by omega, by omega, by simp [h4]; omega⟩

/-! ## read_rate_file inversion -/

theorem read_ok_inv {file : List Line} {p : Dict × Parsed}
    (h : read_rate_file file = .ok p) :
    buildDict file [] = .ok p.1 ∧
      fillLoop p.1 ⟨[], List.replicate p.1.length 0, List.replicate p.1.length 0,
        List.replicate p.1.length 0⟩ = .ok p.2 := by
  unfold read_rate_file at h
  cases hb : buildDict file [] with
  | error er => simp [hb] at h
  | ok d =>
    simp only [hb] at h
    cases hf : fillLoop d ⟨[], List.replicate d.length 0, List.replicate d.length 0,
        List.replicate d.length 0⟩ with
    | error er => simp [hf] at h
    | ok st =>
      simp only [hf] at h
      injection h with h'
      rw [← h']
      exact ⟨rfl, hf⟩

theorem read_ok_lengths {file : List Line} {p : Dict × Parsed}
    (h : read_rate_file file = .ok p) :
    p.2.α.length = p.2.type.length ∧ p.2.β.length = p.2.type.length ∧
      p.2.γ.length = p.2.type.length ∧ p.2.type.length = p.1.length := by
  obtain ⟨hb, hf⟩ := read_ok_inv h
  obtain ⟨h1, h2, h3, h4⟩ := fillLoop_ok_lengths _ _ _ hf
  simp at h1 h2 h3 h4
  exact ⟨by omega, by omega, by omega, by omega⟩

/-! ## Dispatch lemmas -/

theorem rate_entry_ok (T δ Av : ℝ) (st : Parsed) (i : Nat)
    (hi : i < st.type.length) (hα : st.α.length = st.type.length)
    (hβ : st.β.length = st.type.length) (hγ : st.γ.length = st.type.length) :
    rate_entry T δ Av st i = .ok (rateFormula T δ Av st i) := by
  have ht := listIdx_ok_of_lt st.type i hi emptyStr
  have ha := listIdx_ok_of_lt st.α i (by omega) 0
  have hb := listIdx_ok_of_lt st.β i (by omega) 0
  have hg := listIdx_ok_of_lt st.γ i (by omega) 0
  simp only [rate_entry, rateFormula, ht, ha, hb, hg]
  split
  · rfl
  · split
    · rfl
    · split
      · rfl
      · split
        · rfl
        · split
          · rfl
          · rfl

theorem mapExcept_ok {A B : Type} (f : A → Except Err B) (g : A → B) :
    ∀ (l : List A), (∀ x ∈ l, f x = .ok (g x)) →
      mapExcept f l = .ok (l.map g) := by
  intro l
  induction l with
  | nil => intro _; rfl
  | cons x xs ih =>
    intro hall
    have hx := hall x (by simp)
    have hxs := ih (fun y hy => hall y (by simp [hy]))
    simp [mapExcept, hx, hxs]

theorem calc_of_read (T δ Av : ℝ) (file : List Line) (p : Dict × Parsed)
    (h : read_rate_file file = .ok p) :
    calculate_rates T δ Av file =
      .ok ((List.range p.2.type.length).map (rateFormula T δ Av p.2)) := by
  obtain ⟨h1, h2, h3, _⟩ := read_ok_lengths h
  unfold calculate_rates
  rw [h]
  show calc_loop T δ Av p.2 = _
  unfold calc_loop
  apply mapExcept_ok
  intro i hi
  rw [List.mem_range] at hi
  exact rate_entry_ok T δ Av p.2 i hi h1 h2 h3

theorem calc_get (T δ Av : ℝ) {file : List Line} {p : Dict × Parsed}
    (h : read_rate_file file = .ok p) {i : Nat} {t : String}
    (ht : p.2.type.get? i = some t) :
    ∃ k, calculate_rates T δ Av file = .ok k ∧
      k.get? i = some (rateFormula T δ Av p.2 i) := by
  refine ⟨_, calc_of_read T δ Av file p h, ?_⟩
  have hi : i < p.2.type.length := by
    rcases List.get?_eq_some.mp ht with ⟨hlt, _⟩
    exact hlt
  rw [List.get?_map, List.get?_range hi]
  rfl

theorem getD_of_get? {A : Type} {xs : List A} {i : Nat} {a : A}
    (h : xs.get? i = some a) (d : A) : xs.getD i d = a := by
  rw [List.getD_eq_get?, h]
  rfl

/-- For a CP, IP or AP entry the dispatched value does not mention the
physical conditions: it is `α[i]` (CP) or the constant `0` (IP, AP). -/
theorem rateFormula_const (T δ Av : ℝ) (st : Parsed) (i : Nat) (t : String)
    (ht : st.type.get? i = some t)
    (hmem : t = tagCP ∨ t = tagIP ∨ t = tagAP) :
    rateFormula T δ Av st i =
      if t = tagCP then CP_rate (st.α.getD i 0) else 0 := by
  have hgd : st.type.getD i emptyStr = t := getD_of_get? ht emptyStr
  unfold rateFormula
  rw [hgd]
  rcases hmem with h | h | h
  · rw [h, if_pos rfl, if_pos rfl]
  · rw [h, if_neg (by decide), if_neg (by decide), if_neg (by decide),
      if_pos rfl, if_neg (by decide)]
  · rw [h, if_neg (by decide), if_neg (by decide), if_neg (by decide),
      if_neg (by decide), if_pos rfl, if_neg (by decide)]

/-! ## Claim C1 -/

/-- C1: for every rate table the parser accepts, `calculate_rates` returns a
vector with one entry per reaction, in table order, whose entry `i` is
`α[i]` when `type[i] = CP`, `α[i]*(T*frac)^β[i]*γ[i]*alb` when `CR`,
`α[i]*δ*exp(-γ[i]*Av)` when `PH`, exactly `0` when `IP` or `AP`, and the
Arrhenius value `α[i]*(T*frac)^β[i]*exp(-γ[i]/T)` for every other tag
(`rateFormula` spells out exactly this case split). -/
theorem C1_rate_dispatch (T δ Av : ℝ) (file : List Line) (p : Dict × Parsed)
    (h : read_rate_file file = .ok p) :
    calculate_rates T δ Av file =
      .ok ((List.range p.2.type.length).map (rateFormula T δ Av p.2)) :=
  calc_of_read T δ Av file p h

/-- Witness for C1: the synthetic six-reaction table (one reaction of each of
CP, CR, PH, IP, AP, NN) at `T = 300`, `δ = 1`, `Av = 1` yields the dispatch
vector, which evaluates to `[α_CP, α·γ·alb, α·exp(-γ), 0, 0, α·exp(-γ/300)]`
= `[3, 30, 5·exp(-7), 0, 0, 11·exp(-17/300)]`. -/
theorem C1_rate_dispatch_witness :
    calculate_rates 300 1 1 synthFile =
      .ok ((List.range synthParsed.2.type.length).map
        (rateFormula 300 1 1 synthParsed.2)) ∧
    calculate_rates 300 1 1 synthFile =
      .ok [3, 3 * 5 * 2, 5 * Real.exp (-7), 0, 0, 11 * Real.exp (-(17:ℝ)/300)] := by
  have h := C1_rate_dispatch 300 1 1 synthFile synthParsed rfl
  refine ⟨h, ?_⟩
  rw [h]
  rw [show List.range (synthParsed.2.type.length) = [0, 1, 2, 3, 4, 5] from rfl]
  have e1 : tagCR ≠ tagCP := by decide
  have e2 : tagPH ≠ tagCP := by decide
  have e3 : tagPH ≠ tagCR := by decide
  have e4 : tagIP ≠ tagCP := by decide
  have e5 : tagIP ≠ tagCR := by decide
  have e6 : tagIP ≠ tagPH := by decide
  have e7 : tagAP ≠ tagCP := by decide
  have e8 : tagAP ≠ tagCR := by decide
  have e9 : tagAP ≠ tagPH := by decide
  have e10 : tagNN ≠ tagCP := by decide
  have e11 : tagNN ≠ tagCR := by decide
  have e12 : tagNN ≠ tagPH := by decide
  have e13 : tagNN ≠ tagIP := by decide
  have e14 : tagNN ≠ tagAP := by decide
  norm_num [synthParsed, rateFormula, CP_rate, CR_rate, photodissociation_rate,
    Arrhenius_rate, frac, alb, w, List.getD, Real.one_rpow,
    e1, e2, e3, e4, e5, e6, e7, e8, e9, e10, e11, e12, e13, e14]

/-! ## Claim C7 -/

/-- C7: with `β = 0` and `γ = 0` the Arrhenius law
`α*(T*frac)^β*exp(-γ/T)` reduces to `α`, for every `α` and every `T > 0`. -/
theorem C7_Arrhenius_reduces_to_alpha (α T : ℝ) (hT : 0 < T) :
    Arrhenius_rate α 0 0 T = α := by
  unfold Arrhenius_rate
  rw [Real.rpow_zero]
  simp

/-- Witness for C7 at `α = 5`, `T = 300`. -/
theorem C7_Arrhenius_reduces_to_alpha_witness :
    (0:ℝ) < 300 ∧ Arrhenius_rate 5 0 0 300 = 5 :=
  ⟨by norm_num, C7_Arrhenius_reduces_to_alpha 5 300 (by norm_num)⟩

/-! ## Claim C3 -/

/-- C3 counterexample: `XX` is not one of the 15 known tags, yet
`calculate_rates` on a one-reaction table with tag `XX` raises no error at
all — it silently substitutes the Arrhenius (default two-body) law, here
`Arrhenius_rate 11 0 0 300 = 11`.  This falsifies the claim that an
`UnknownReactionType` error is raised and that no default law is applied. -/
theorem C3_unknown_tag_cex :
    tagXX ∉ reaction_type.map Prod.fst ∧
    calculate_rates 300 1 1 xxFile = .ok [Arrhenius_rate 11 0 0 300] ∧
    Arrhenius_rate 11 0 0 300 = 11 := by
  refine ⟨by decide, rfl, ?_⟩
  unfold Arrhenius_rate
  rw [Real.rpow_zero]
  simp

/-- C3 amended: for a reaction whose tag is none of the 15 known tags,
`calculate_rates` raises no error for that entry — the `if/elif` chain falls
through to the Arrhenius law, so the entry equals
`Arrhenius_rate α[i] β[i] γ[i] T`. -/
theorem C3_unknown_tag_amended (T δ Av : ℝ) (file : List Line)
    (p : Dict × Parsed) (h : read_rate_file file = .ok p) (i : Nat) (t : String)
    (ht : p.2.type.get? i = some t) (hunk : t ∉ reaction_type.map Prod.fst) :
    ∃ k, calculate_rates T δ Av file = .ok k ∧
      k.get? i = some (Arrhenius_rate (p.2.α.getD i 0) (p.2.β.getD i 0)
        (p.2.γ.getD i 0) T) := by
  obtain ⟨k, hk, hget⟩ := calc_get T δ Av h ht
  refine ⟨k, hk, ?_⟩
  rw [hget]
  have hgd : p.2.type.getD i emptyStr = t := getD_of_get? ht emptyStr
  have n1 : t ≠ tagCP := fun he => hunk (by rw [he]; decide)
  have n2 : t ≠ tagCR := fun he => hunk (by rw [he]; decide)
  have n3 : t ≠ tagPH := fun he => hunk (by rw [he]; decide)
  have n4 : t ≠ tagIP := fun he => hunk (by rw [he]; decide)
  have n5 : t ≠ tagAP := fun he => hunk (by rw [he]; decide)
  unfold rateFormula
  rw [hgd, if_neg n1, if_neg n2, if_neg n3, if_neg n4, if_neg n5]

/-- Witness for the amended C3 at the `XX` table. -/
theorem C3_unknown_tag_amended_witness :
    ∃ k, calculate_rates 300 1 1 xxFile = .ok k ∧
      k.get? 0 = some (Arrhenius_rate (xxParsed.2.α.getD 0 0)
        (xxParsed.2.β.getD 0 0) (xxParsed.2.γ.getD 0 0) 300) :=
  C3_unknown_tag_amended 300 1 1 xxFile xxParsed rfl 0 tagXX rfl (by decide)

/-! ## Claim C9 -/

/-- C9: the entries of the rate vector whose tag is CP, IP or AP are
identical across two evaluations with different physical conditions
`T`, `δ`, `Av` over the same rate file: such an entry is `α[i]` (CP) or the
constant `0` (IP, AP), never a function of the conditions. -/
theorem C9_cp_ip_ap_condition_independent (file : List Line)
    (p : Dict × Parsed) (h : read_rate_file file = .ok p) (i : Nat) (t : String)
    (ht : p.2.type.get? i = some t)
    (hmem : t = tagCP ∨ t = tagIP ∨ t = tagAP)
    (T₁ δ₁ Av₁ T₂ δ₂ Av₂ : ℝ) :
    ∃ k₁ k₂, calculate_rates T₁ δ₁ Av₁ file = .ok k₁ ∧
      calculate_rates T₂ δ₂ Av₂ file = .ok k₂ ∧
      k₁.get? i = k₂.get? i ∧
      k₁.get? i = some (if t = tagCP then CP_rate (p.2.α.getD i 0) else 0) := by
  obtain ⟨k₁, hk₁, hg₁⟩ := calc_get T₁ δ₁ Av₁ h ht
  obtain ⟨k₂, hk₂, hg₂⟩ := calc_get T₂ δ₂ Av₂ h ht
  have hc₁ := rateFormula_const T₁ δ₁ Av₁ p.2 i t ht hmem
  have hc₂ := rateFormula_const T₂ δ₂ Av₂ p.2 i t ht hmem
  refine ⟨k₁, k₂, hk₁, hk₂, ?_, ?_⟩
  · rw [hg₁, hg₂, hc₁, hc₂]
  · rw [hg₁, hc₁]

/-- Witness for C9: the CP entry of the synthetic table is the same at
`(T, δ, Av) = (300, 1, 1)` and `(10, 2, 5)`. -/
theorem C9_cp_ip_ap_condition_independent_witness :
    ∃ k₁ k₂, calculate_rates 300 1 1 synthFile = .ok k₁ ∧
      calculate_rates 10 2 5 synthFile = .ok k₂ ∧
      k₁.get? 0 = k₂.get? 0 ∧
      k₁.get? 0 = some (if tagCP = tagCP then
        CP_rate (synthParsed.2.α.getD 0 0) else 0) :=
  C9_cp_ip_ap_condition_independent synthFile synthParsed rfl 0 tagCP rfl
    (Or.inl rfl) 300 1 1 10 2 5

/-! ## Connector lemmas for parsing -/

theorem listIdx_ok_of_get? {A : Type} {xs : List A} {i : Nat} {x : A}
    (h : xs.get? i = some x) : listIdx xs i = .ok x := by
  unfold listIdx
  rw [h]

theorem floatAt_ok_iff {fs : List Field} {i : Nat} {a : ℝ} :
    floatAt fs i = .ok a ↔ (fs.get? i).bind Field.asFloat = some a := by
  unfold floatAt listIdx pyFloat
  cases h : fs.get? i with
  | none => simp
  | some f =>
    cases hf : f.asFloat with
    | none => simp [hf]
    | some x => simp [hf]

theorem rawAt_of_listIdx {fs : List Field} {f0 : Field}
    (h : listIdx fs 0 = .ok f0) : rawAt fs = f0.raw := by
  unfold listIdx at h
  cases hx : fs.get? 0 with
  | none => rw [hx] at h; cases h
  | some f =>
    rw [hx] at h
    injection h with h'
    unfold rawAt
    rw [hx, h']
    rfl

/-- Main characterisation of the second loop of `read_rate_file`: on a dict
with pairwise-distinct keys in range `[1, n]` (`n` the array length) and
well-formed field lists, the loop succeeds; it appends the type tags in dict
order, stores each entry's float fields at position `key - 1`, and leaves
all other positions unchanged. -/
theorem fillLoop_main :
    ∀ (entries : Dict) (st : Parsed),
      (entries.map Prod.fst).Nodup →
      (∀ e ∈ entries, entryOk e.2) →
      (∀ e ∈ entries, 1 ≤ e.1 ∧ e.1 ≤ (st.α.length : Int)) →
      st.β.length = st.α.length → st.γ.length = st.α.length →
      ∃ st', fillLoop entries st = .ok st' ∧
        st'.α.length = st.α.length ∧ st'.β.length = st.β.length ∧
        st'.γ.length = st.γ.length ∧
        st'.type = st.type ++ entries.map (fun e => rawAt e.2) ∧
        (∀ e ∈ entries,
          st'.α.get? (e.1 - 1).toNat = ((e.2.get? 8).bind Field.asFloat) ∧
          st'.β.get? (e.1 - 1).toNat = ((e.2.get? 9).bind Field.asFloat) ∧
          st'.γ.get? (e.1 - 1).toNat = ((e.2.get? 10).bind Field.asFloat)) ∧
        (∀ q : Nat, (∀ e ∈ entries, e.1 - 1 ≠ (q : Int)) →
          st'.α.get? q = st.α.get? q ∧ st'.β.get? q = st.β.get? q ∧
          st'.γ.get? q = st.γ.get? q) := by
  intro entries
  induction entries with
  | nil =>
    intro st _ _ _ _ _
    exact ⟨st, rfl, rfl, rfl, rfl, by simp, by simp,
      fun q _ => ⟨rfl, rfl, rfl⟩⟩
  | cons e es ih =>
    intro st hnodup hok hrange hβ hγ
    obtain ⟨⟨f0, h0⟩, ⟨a, h8⟩, ⟨b, h9⟩, ⟨g, h10⟩⟩ := hok e (by simp)
    have hr := hrange e (by simp)
    have hstep := fillStep_ok st e f0 a b g h0 h8 h9 h10 hβ hγ hr.1 hr.2
    have hnodup' : (es.map Prod.fst).Nodup :=
      (List.nodup_cons.mp (by simpa using hnodup)).2
    have hnotin : e.1 ∉ es.map Prod.fst :=
      (List.nodup_cons.mp (by simpa using hnodup)).1
    have hok' : ∀ e' ∈ es, entryOk e'.2 := fun e' he' => hok e' (by simp [he'])
    obtain ⟨st', hloop, l1, l2, l3, htype, hentries, hframe⟩ :=
      ih ⟨st.type ++ [f0.raw], st.α.set (e.1 - 1).toNat a,
          st.β.set (e.1 - 1).toNat b, st.γ.set (e.1 - 1).toNat g⟩
        hnodup' hok'
        (by
          intro e' he'
          have := hrange e' (by simp [he'])
          simpa using this)
        (by simp [hβ]) (by simp [hγ])
    simp only [List.length_set] at l1 l2 l3
    have hlt : (e.1 - 1).toNat < st.α.length := by omega
    refine ⟨st', ?_, l1, l2, l3, ?_, ?_, ?_⟩
    · simp only [fillLoop, hstep]
      exact hloop
    · rw [htype]
      simp [rawAt_of_listIdx h0]
    · intro e' he'
      rcases List.mem_cons.mp he' with he' | he'
      · rw [he']
        have hne : ∀ e'' ∈ es, e''.1 - 1 ≠ (((e.1 - 1).toNat : Nat) : Int) := by
          intro e'' he''
          have hne' : e''.1 ≠ e.1 := by
            intro hcon
            exact hnotin (hcon ▸ List.mem_map_of_mem Prod.fst he'')
          omega
        obtain ⟨hfα, hfβ, hfγ⟩ := hframe (e.1 - 1).toNat hne
        refine ⟨?_, ?_, ?_⟩
        · rw [hfα]
          show (st.α.set (e.1 - 1).toNat a).get? (e.1 - 1).toNat = _
          rw [get?_set_self _ _ _ hlt, floatAt_ok_iff.mp h8]
        · rw [hfβ]
          show (st.β.set (e.1 - 1).toNat b).get? (e.1 - 1).toNat = _
          rw [get?_set_self _ _ _ (by omega), floatAt_ok_iff.mp h9]
        · rw [hfγ]
          show (st.γ.set (e.1 - 1).toNat g).get? (e.1 - 1).toNat = _
          rw [get?_set_self _ _ _ (by omega), floatAt_ok_iff.mp h10]
      · exact hentries e' he'
    · intro q hq
      have hq' : ∀ e'' ∈ es, e''.1 - 1 ≠ (q : Int) :=
        fun e'' he'' => hq e'' (by simp [he''])
      obtain ⟨hfα, hfβ, hfγ⟩ := hframe q hq'
      have hqe : (e.1 - 1).toNat ≠ q := by
        have := hq e (by simp)
        omega
      refine ⟨?_, ?_, ?_⟩
      · rw [hfα]
        show (st.α.set (e.1 - 1).toNat a).get? q = _
        exact get?_set_other _ _ _ _ hqe
      · rw [hfβ]
        show (st.β.set (e.1 - 1).toNat b).get? q = _
        exact get?_set_other _ _ _ _ hqe
      · rw [hfγ]
        show (st.γ.set (e.1 - 1).toNat g).get? q = _
        exact get?_set_other _ _ _ _ hqe

/-! ## Claim C2 -/

/-- C2 counterexample: a well-formed two-line file with the index-2 line
(tag PH) first and the index-1 line (tag CP) second parses without error,
but the `type` sequence is `["PH", "CP"]` — file-line order — whereas the
claim demands `types[0]` be the tag of the index-1 line, `"CP"`.
(The `α`/`β`/`γ` arrays ARE index-ordered: `α = [3, 7]`.) -/
theorem C2_parse_ordering_cex :
    (cexFile.map (fun l => l.1.asInt)) = [some 2, some 1] ∧
    read_rate_file cexFile = .ok cexParsed ∧
    cexParsed.2.type = [tagPH, tagCP] ∧ tagPH ≠ tagCP ∧
    cexParsed.2.α = [3, 7] :=
  ⟨rfl, rfl, rfl, by decide, rfl⟩

/-- C2 amended: for every well-formed rate file (all indices parse, are
pairwise distinct and lie in `1..N` where `N` is the line count, and the
needed fields parse), `read_rate_file` succeeds with four sequences of
length `N`; `α`, `β` and `γ` are dense and ordered by reaction index — the
value at position `n-1` is the field-8/9/10 value of the line whose first
field is `n` — while `type` is in file-line order (it equals the list of
tags in the order the lines appear), not reaction-index order. -/
theorem C2_parse_ordering_amended (file : List Line) (idxs : List Int)
    (tags : List String) (as bs gs : List ℝ)
    (hidx : mapOpt (fun l => l.1.asInt) file = some idxs)
    (hnodup : idxs.Nodup)
    (hrange : ∀ n ∈ idxs, 1 ≤ n ∧ n ≤ (file.length : Int))
    (htags : mapOpt (fun l => (l.2.get? 0).map Field.raw) file = some tags)
    (has : mapOpt (fun l => (l.2.get? 8).bind Field.asFloat) file = some as)
    (hbs : mapOpt (fun l => (l.2.get? 9).bind Field.asFloat) file = some bs)
    (hgs : mapOpt (fun l => (l.2.get? 10).bind Field.asFloat) file = some gs) :
    ∃ d st, read_rate_file file = .ok (d, st) ∧
      st.type.length = file.length ∧ st.α.length = file.length ∧
      st.β.length = file.length ∧ st.γ.length = file.length ∧
      st.type = tags ∧
      (∀ k n, idxs.get? k = some n →
        st.α.get? (n - 1).toNat = as.get? k ∧
        st.β.get? (n - 1).toNat = bs.get? k ∧
        st.γ.get? (n - 1).toNat = gs.get? k) := by
  have hleni := mapOpt_some_length _ _ _ hidx
  have hlent := mapOpt_some_length _ _ _ htags
  have hlena := mapOpt_some_length _ _ _ has
  have hlenb := mapOpt_some_length _ _ _ hbs
  have hleng := mapOpt_some_length _ _ _ hgs
  have hD := buildDict_nodup file idxs hidx hnodup [] (by simp)
  rw [List.nil_append] at hD
  set ents := (file.zip idxs).map (fun p => (p.2, p.1.2)) with hents
  have hzlen : (file.zip idxs).length = file.length := by
    rw [List.length_zip]; omega
  have hentlen : ents.length = file.length := by
    rw [hents, List.length_map]; exact hzlen
  have hkeys : ents.map Prod.fst = idxs := by
    rw [hents, List.map_map]
    have hcomp : (Prod.fst ∘ fun p : Line × Int => (p.2, p.1.2)) = Prod.snd := rfl
    rw [hcomp]
    exact List.map_snd_zip file idxs (by omega)
  -- pointwise description of entries
  have hey : ∀ k l n, file.get? k = some l → idxs.get? k = some n →
      ents.get? k = some (n, l.2) := by
    intro k l n hfk hik
    rw [hents, List.get?_map, get?_zip file idxs k l n hfk hik]
    rfl
  have hfile_some : ∀ k, k < file.length → ∃ l, file.get? k = some l := by
    intro k hk
    cases hfk : file.get? k with
    | none => rw [List.get?_eq_none] at hfk; omega
    | some l => exact ⟨l, rfl⟩
  have hmem : ∀ e ∈ ents, ∃ k l, file.get? k = some l ∧
      idxs.get? k = some e.1 ∧ e.2 = l.2 := by
    intro e he
    obtain ⟨k, hk⟩ := List.mem_iff_get?.mp he
    have hkl : k < ents.length := by
      rcases List.get?_eq_some.mp hk with ⟨hlt, _⟩
      exact hlt
    obtain ⟨l, hfk⟩ := hfile_some k (by omega)
    have hiks : ∃ n, idxs.get? k = some n := by
      cases hin : idxs.get? k with
      | none => rw [List.get?_eq_none] at hin; omega
      | some n => exact ⟨n, rfl⟩
    obtain ⟨n, hik⟩ := hiks
    have := hey k l n hfk hik
    rw [hk] at this
    injection this with this
    rw [this]
    exact ⟨k, l, hfk, hik, rfl⟩
  have hok : ∀ e ∈ ents, entryOk e.2 := by
    intro e he
    obtain ⟨k, l, hfk, hik, he2⟩ := hmem e he
    have hkl : k < file.length := by
      rcases List.get?_eq_some.mp hfk with ⟨hlt, _⟩
      exact hlt
    have htk := mapOpt_some_get? _ _ _ htags k l hfk
    have hak := mapOpt_some_get? _ _ _ has k l hfk
    have hbk := mapOpt_some_get? _ _ _ hbs k l hfk
    have hgk := mapOpt_some_get? _ _ _ hgs k l hfk
    rw [he2]
    refine ⟨?_, ?_, ?_, ?_⟩
    · cases hf0 : l.2.get? 0 with
      | none =>
        rw [hf0] at htk
        simp at htk
        omega
      | some f => exact ⟨f, listIdx_ok_of_get? hf0⟩
    · cases hax : as.get? k with
      | none => rw [List.get?_eq_none] at hax; omega
      | some x =>
        rw [hax] at hak
        exact ⟨x, floatAt_ok_iff.mpr hak.symm⟩
    · cases hbx : bs.get? k with
      | none => rw [List.get?_eq_none] at hbx; omega
      | some x =>
        rw [hbx] at hbk
        exact ⟨x, floatAt_ok_iff.mpr hbk.symm⟩
    · cases hgx : gs.get? k with
      | none => rw [List.get?_eq_none] at hgx; omega
      | some x =>
        rw [hgx] at hgk
        exact ⟨x, floatAt_ok_iff.mpr hgk.symm⟩
  have hnodup' : (ents.map Prod.fst).Nodup := by rw [hkeys]; exact hnodup
  have hrange' : ∀ e ∈ ents, 1 ≤ e.1 ∧
      e.1 ≤ ((List.replicate ents.length (0:ℝ)).length : Int) := by
    intro e he
    have : e.1 ∈ idxs := by
      rw [← hkeys]
      exact List.mem_map_of_mem Prod.fst he
    have hb := hrange e.1 this
    simp [hentlen]
    omega
  obtain ⟨st', hloop, l1, l2, l3, htype, hent, _⟩ :=
    fillLoop_main ents
      ⟨[], List.replicate ents.length 0, List.replicate ents.length 0,
        List.replicate ents.length 0⟩
      hnodup' hok hrange' (by simp) (by simp)
  simp only [List.length_replicate] at l1 l2 l3
  have hread : read_rate_file file = .ok (ents, st') := by
    simp only [read_rate_file, hD, hloop]
  refine ⟨ents, st', hread, ?_, by omega, by omega, by omega, ?_, ?_⟩
  · rw [htype]
    simp [hentlen]
  · -- st'.type = tags
    rw [htype]
    simp only [List.nil_append]
    apply List.ext
    intro k
    by_cases hk : k < file.length
    · obtain ⟨l, hfk⟩ := hfile_some k hk
      have hiks : ∃ n, idxs.get? k = some n := by
        cases hin : idxs.get? k with
        | none => rw [List.get?_eq_none] at hin; omega
        | some n => exact ⟨n, rfl⟩
      obtain ⟨n, hik⟩ := hiks
      have heyk := hey k l n hfk hik
      have hmk : (ents.map (fun e => rawAt e.2)).get? k = some (rawAt l.2) := by
        rw [List.get?_map, heyk]
        rfl
      rw [hmk]
      have htk := mapOpt_some_get? _ _ _ htags k l hfk
      cases hf0 : l.2.get? 0 with
      | none =>
        rw [hf0] at htk
        simp at htk
        omega
      | some f =>
        rw [hf0] at htk
        rw [htk]
        unfold rawAt
        rw [hf0]
        rfl
    · rw [List.get?_eq_none.mpr, List.get?_eq_none.mpr]
      · omega
      · rw [List.length_map]; omega
  · intro k n hik
    have hkl : k < file.length := by
      rcases List.get?_eq_some.mp hik with ⟨hlt, _⟩
      omega
    obtain ⟨l, hfk⟩ := hfile_some k hkl
    have heyk := hey k l n hfk hik
    have hin : (n, l.2) ∈ ents := List.get?_mem heyk
    obtain ⟨ha, hb, hg⟩ := hent (n, l.2) hin
    have hak := mapOpt_some_get? _ _ _ has k l hfk
    have hbk := mapOpt_some_get? _ _ _ hbs k l hfk
    have hgk := mapOpt_some_get? _ _ _ hgs k l hfk
    exact ⟨by rw [← hak] at ha; exact ha, by rw [← hbk] at hb; exact hb,
      by rw [← hgk] at hg; exact hg⟩

/-- Witness for the amended C2, at the out-of-order two-line file `cexFile`:
`type = ["PH", "CP"]` (file order) while `α`/`β`/`γ` are index-ordered. -/
theorem C2_parse_ordering_amended_witness :
    ∃ d st, read_rate_file cexFile = .ok (d, st) ∧
      st.type.length = cexFile.length ∧ st.α.length = cexFile.length ∧
      st.β.length = cexFile.length ∧ st.γ.length = cexFile.length ∧
      st.type = [tagPH, tagCP] ∧
      (∀ k n, ([2, 1] : List Int).get? k = some n →
        st.α.get? (n - 1).toNat = ([7, 3] : List ℝ).get? k ∧
        st.β.get? (n - 1).toNat = ([0, 0] : List ℝ).get? k ∧
        st.γ.get? (n - 1).toNat = ([1, 0] : List ℝ).get? k) :=
  C2_parse_ordering_amended cexFile [2, 1] [tagPH, tagCP] [7, 3] [0, 0] [1, 0]
    rfl (by decide) (by decide) rfl rfl rfl rfl

/-! ## Claim C5 -/

theorem fillStep_er (e : Int × List Field) (hbad : ¬ entryOk e.2) :
    ∀ st, ∃ er, fillStep st e = .error er := by
  intro st
  cases h : fillStep st e with
  | error er => exact ⟨er, rfl⟩
  | ok st₁ =>
    obtain ⟨f0, a, b, g, _, _, _, h0, h8, h9, h10, _, _, _, _⟩ :=
      fillStep_ok_inv h
    exact absurd ⟨⟨f0, h0⟩, ⟨a, h8⟩, ⟨b, h9⟩, ⟨g, h10⟩⟩ hbad

theorem fillLoop_er :
    ∀ (entries : Dict) (e : Int × List Field), e ∈ entries →
      (∀ st, ∃ er, fillStep st e = .error er) →
      ∀ st, ∃ er, fillLoop entries st = .error er := by
  intro entries
  induction entries with
  | nil => intro e he; simp at he
  | cons e₀ es ih =>
    intro e he hbad st
    cases hstep : fillStep st e₀ with
    | error er => exact ⟨er, by simp [fillLoop, hstep]⟩
    | ok st₁ =>
      rcases List.mem_cons.mp he with he | he
      · obtain ⟨er, hc⟩ := hbad st
        rw [← he] at hstep
        rw [hstep] at hc
        cases hc
      · obtain ⟨er, hl⟩ := ih e he hbad st₁
        exact ⟨er, by simp [fillLoop, hstep, hl]⟩

/-- C5 counterexample: a file in which reaction index 1 appears on two lines
parses WITHOUT error — the second line silently overwrites the first (last
line wins) and the resulting table has a single entry.  This falsifies the
claim that a duplicated index makes `read_rate_file` fail. -/
theorem C5_malformed_file_cex :
    (dupFile.map (fun l => l.1.asInt)) = [some 1, some 1] ∧
    read_rate_file dupFile = .ok dupParsed :=
  ⟨rfl, rfl⟩

/-- C5 amended: `read_rate_file` fails, returning no table at all, whenever
some line's first field does not parse as an integer; and, on a file whose
indices all parse and are pairwise distinct, whenever some line lacks the
fields at offsets 0, 8, 9, 10 after the index or one of the three numeric
fields does not parse as floating point.  Duplicate indices, however, are
NOT rejected (see the counterexample). -/
theorem C5_malformed_file_amended :
    (∀ file : List Line, (∃ l ∈ file, l.1.asInt = none) →
      read_rate_file file = .error .valueError) ∧
    (∀ (file : List Line) (idxs : List Int),
      mapOpt (fun l => l.1.asInt) file = some idxs → idxs.Nodup →
      (∃ l ∈ file, ¬ entryOk l.2) →
      ∃ er, read_rate_file file = .error er) := by
  constructor
  · intro file hbad
    unfold read_rate_file
    rw [buildDict_er file hbad []]
  · intro file idxs hidx hnodup hbad
    obtain ⟨l, hl, hlbad⟩ := hbad
    have hleni := mapOpt_some_length _ _ _ hidx
    have hD := buildDict_nodup file idxs hidx hnodup [] (by simp)
    rw [List.nil_append] at hD
    obtain ⟨k, hk⟩ := List.mem_iff_get?.mp hl
    have hkl : k < file.length := by
      rcases List.get?_eq_some.mp hk with ⟨hlt, _⟩
      exact hlt
    have hiks : ∃ n, idxs.get? k = some n := by
      cases hin : idxs.get? k with
      | none => rw [List.get?_eq_none] at hin; omega
      | some n => exact ⟨n, rfl⟩
    obtain ⟨n, hik⟩ := hiks
    have hz := get?_zip file idxs k l n hk hik
    have hentry : (n, l.2) ∈ (file.zip idxs).map (fun p => (p.2, p.1.2)) :=
      List.mem_map.mpr ⟨(l, n), List.get?_mem hz, rfl⟩
    have hstepbad : ∀ st, ∃ er, fillStep st (n, l.2) = .error er :=
      fillStep_er (n, l.2) hlbad
    obtain ⟨er, hloop⟩ := fillLoop_er _ _ hentry hstepbad
      ⟨[], List.replicate ((file.zip idxs).map (fun p => (p.2, p.1.2))).length 0,
        List.replicate ((file.zip idxs).map (fun p => (p.2, p.1.2))).length 0,
        List.replicate ((file.zip idxs).map (fun p => (p.2, p.1.2))).length 0⟩
    refine ⟨er, ?_⟩
    simp only [read_rate_file, hD, hloop]

/-- Witness for the amended C5: a file with a textual first field fails with
`ValueError`; a file with distinct indices but a too-short line fails. -/
theorem C5_malformed_file_amended_witness :
    read_rate_file badIntFile = .error .valueError ∧
    (∃ er, read_rate_file shortFile = .error er) := by
  constructor
  · exact C5_malformed_file_amended.1 badIntFile ⟨(sField tagXX, mkRest tagCP 1 0 0),
      by simp [badIntFile], rfl⟩
  · refine C5_malformed_file_amended.2 shortFile [1] rfl (by decide)
      ⟨(iField 1, [sField tagCP]), by simp [shortFile], ?_⟩
    intro hok
    obtain ⟨-, ⟨a, ha⟩, -, -⟩ := hok
    simp [floatAt, listIdx] at ha

/-! ## Claim C6 -/

theorem rootFillStep_ok {st st₁ : Parsed} {e : Int × List Field}
    (h : fillStep st e = .ok st₁) :
    ∀ rst : Root.Parsed, ∃ rst', Root.fillStep rst e = .ok rst' ∧
      rst'.type.length = rst.type.length + 1 := by
  obtain ⟨f0, a, b, g, _, _, _, h0, h8, h9, h10, _, _, _, _⟩ :=
    fillStep_ok_inv h
  intro rst
  refine ⟨⟨rst.type ++ [f0.raw], rst.α ++ [a], rst.β ++ [b], rst.γ ++ [g]⟩,
    ?_, by simp⟩
  simp [Root.fillStep, h0, h8, h9, h10]

theorem rootFillLoop_ok :
    ∀ (entries : Dict) (st st₁ : Parsed), fillLoop entries st = .ok st₁ →
      ∀ rst : Root.Parsed, ∃ rst', Root.fillLoop entries rst = .ok rst' ∧
        rst'.type.length = rst.type.length + entries.length := by
  intro entries
  induction entries with
  | nil =>
    intro st st₁ _ rst
    exact ⟨rst, rfl, by simp⟩
  | cons e es ih =>
    intro st st₁ h rst
    unfold fillLoop at h
    cases hstep : fillStep st e with
    | error er => rw [hstep] at h; cases h
    | ok stm =>
      rw [hstep] at h
      obtain ⟨rst₁, hr1, hl1⟩ := rootFillStep_ok hstep rst
      obtain ⟨rst', hr2, hl2⟩ := ih stm st₁ h rst₁
      refine ⟨rst', ?_, ?_⟩
      · simp only [Root.fillLoop, hr1]
        exact hr2
      · rw [hl2, hl1]
        simp
        omega

/-- C6 counterexample: on the same one-reaction CP table with `α = 3` and
identical conditions, `calculate_rates` (src/src copy) returns `[3]` while
`calculating_rates` (src copy) returns `[0]` — the two copies do NOT
implement the same logic. -/
theorem C6_duplicate_copies_cex :
    calculate_rates 300 1 1 cpFile = .ok [(3:ℝ)] ∧
    Root.calculating_rates 300 1 1 w cpFile = .ok [(0:ℝ)] ∧
    calculate_rates 300 1 1 cpFile ≠ Root.calculating_rates 300 1 1 w cpFile := by
  refine ⟨rfl, rfl, ?_⟩
  intro hcon
  rw [show calculate_rates 300 1 1 cpFile = .ok [(3:ℝ)] from rfl,
    show Root.calculating_rates 300 1 1 w cpFile = .ok [(0:ℝ)] from rfl] at hcon
  simp at hcon

/-- C6 amended: on identical file contents and inputs, `calculating_rates`
in `src/rates.py` is an unfinished stub — it returns the all-zeros vector of
the same length as the rate vector of `calculate_rates` in
`src/src/rates.py`; the two copies agree in vector length only, not in
values. -/
theorem C6_duplicate_copies_amended (T δ Av w' : ℝ) (file : List Line)
    (p : Dict × Parsed) (h : read_rate_file file = .ok p) :
    ∃ k, calculate_rates T δ Av file = .ok k ∧
      Root.calculating_rates T δ Av w' file = .ok (List.replicate k.length 0) := by
  refine ⟨_, calc_of_read T δ Av file p h, ?_⟩
  obtain ⟨hb, hf⟩ := read_ok_inv h
  obtain ⟨rst', hr, hl⟩ := rootFillLoop_ok p.1 _ p.2 hf ⟨[], [], [], []⟩
  have hread : Root.read_rate_file file = .ok (p.1, rst') := by
    simp only [Root.read_rate_file, hb, hr]
  obtain ⟨-, -, -, h4⟩ := read_ok_lengths h
  simp only [Root.calculating_rates, hread]
  simp [hl, h4]

/-- Witness for the amended C6 at the one-reaction CP table. -/
theorem C6_duplicate_copies_amended_witness :
    ∃ k, calculate_rates 300 1 1 cpFile = .ok k ∧
      Root.calculating_rates 300 1 1 w cpFile = .ok (List.replicate k.length 0) :=
  C6_duplicate_copies_amended 300 1 1 w cpFile cpParsed rfl

/-! ## Claim C8 -/

theorem get?_replicate {A : Type} (x : A) :
    ∀ (n j : Nat), j < n → (List.replicate n x).get? j = some x := by
  intro n
  induction n with
  | zero => intro j h; omega
  | succ n ih =>
    intro j h
    cases j with
    | zero => rfl
    | succ j => exact ih j (by omega)

theorem parnt_foldl_no_match (s : String) :
    ∀ (l : List (String × ℝ)) (acc : ℝ), (∀ p ∈ l, s ≠ p.1) →
      l.foldl (fun acc p => if s = p.1 then p.2 else acc) acc = acc := by
  intro l
  induction l with
  | nil => intro acc _; rfl
  | cons p t ih =>
    intro acc h
    have hp : s ≠ p.1 := h p (by simp)
    simp only [List.foldl_cons, if_neg hp]
    exact ih acc (fun q hq => h q (by simp [hq]))

theorem parnt_foldl_unique_match (s : String) (v : ℝ) :
    ∀ (l : List (String × ℝ)), (l.map Prod.fst).Nodup → (s, v) ∈ l →
      ∀ acc, l.foldl (fun acc p => if s = p.1 then p.2 else acc) acc = v := by
  intro l
  induction l with
  | nil => intro _ hmem; simp at hmem
  | cons p t ih =>
    intro hnodup hmem acc
    rw [List.map_cons] at hnodup
    have hnd := List.nodup_cons.mp hnodup
    rcases List.mem_cons.mp hmem with h | h
    · have hs : s = p.1 := by rw [← h]
      have hv : p.2 = v := by rw [← h]
      simp only [List.foldl_cons, if_pos hs]
      rw [← hv]
      apply parnt_foldl_no_match
      intro q hq hcon
      exact hnd.1 (by rw [← hs, hcon]; exact List.mem_map_of_mem Prod.fst hq)
    · have hs : s ≠ p.1 := by
        intro hcon
        have : s ∈ t.map Prod.fst := by
          rw [List.mem_map]
          exact ⟨(s, v), h, rfl⟩
        rw [hcon] at this
        exact hnd.1 this
      simp only [List.foldl_cons, if_neg hs]
      exact ih hnd.2 h acc

/-- C8: `initialise_abs` returns a non-conserved vector whose entry for
`specs[i]` is the abundance the parent table lists for that species when it
appears there (assuming the documented invariant that parent species names
are unique) and exactly `0` otherwise, together with a conserved vector that
is all zeros except slot 1 (molecular hydrogen), which is `0.5`
(the conserved table must have at least two entries for the numpy write
`abs_consv[1] = 0.5` to be in range). -/
theorem C8_initialise_abs_spec (specs : List String)
    (parnt : List (String × ℝ)) (consv : List String)
    (hnodup : (parnt.map Prod.fst).Nodup) (hlen : 2 ≤ consv.length) :
    ∃ ab cv, initialise_abs specs parnt consv = .ok (ab, cv, specs) ∧
      ab.length = specs.length ∧
      (∀ i, i < specs.length →
        (∀ v, (specs.getD i emptyStr, v) ∈ parnt → ab.get? i = some v) ∧
        ((∀ v, (specs.getD i emptyStr, v) ∉ parnt) → ab.get? i = some 0)) ∧
      cv.length = consv.length ∧
      (∀ j, j < consv.length → cv.get? j = some (if j = 1 then 0.5 else 0)) := by
  have hset : npSet (List.replicate consv.length 0) 1 0.5 =
      .ok ((List.replicate consv.length (0:ℝ)).set 1 0.5) :=
    npSet_pos _ _ _ (by omega) (by simp; omega)
  refine ⟨specs.map (fun s =>
      parnt.foldl (fun acc p => if s = p.1 then p.2 else acc) 0),
    (List.replicate consv.length (0:ℝ)).set 1 0.5, ?_, by simp, ?_, by simp, ?_⟩
  · simp only [initialise_abs, hset]
  · intro i hi
    have hsome : ∃ s, specs.get? i = some s := by
      cases hs : specs.get? i with
      | none => rw [List.get?_eq_none] at hs; omega
      | some s => exact ⟨s, rfl⟩
    obtain ⟨s, hs⟩ := hsome
    have hgd : specs.getD i emptyStr = s := getD_of_get? hs emptyStr
    have hmap : (specs.map (fun s =>
        parnt.foldl (fun acc p => if s = p.1 then p.2 else acc) 0)).get? i =
        some (parnt.foldl (fun acc p => if s = p.1 then p.2 else acc) 0) := by
      rw [List.get?_map, hs]
      rfl
    rw [hgd]
    constructor
    · intro v hv
      rw [hmap, parnt_foldl_unique_match s v parnt hnodup hv 0]
    · intro hnone
      rw [hmap]
      have : ∀ p ∈ parnt, s ≠ p.1 := by
        intro p hp hcon
        have hpv : (s, p.2) ∈ parnt := by
          have : p = (s, p.2) := by
            rcases p with ⟨p1, p2⟩
            simp at hcon
            rw [hcon]
          rw [← this]
          exact hp
        exact hnone p.2 hpv
      rw [parnt_foldl_no_match s parnt 0 this]
  · intro j hj
    by_cases hj1 : j = 1
    · rw [hj1, if_pos rfl]
      exact get?_set_self _ _ _ (by simp; omega)
    · rw [if_neg hj1, get?_set_other _ _ _ _ (fun hcon => hj1 hcon.symm)]
      exact get?_replicate 0 consv.length j hj

/-- Witness for C8: two species, parent abundances `CO ↦ 0.25`, `H ↦ 0.125`,
an absent species `He`, and conserved list `[e-, H2]`. -/
theorem C8_initialise_abs_spec_witness :
    ∃ ab cv, initialise_abs [spH, spCO, spHe] [(spCO, 0.25), (spH, 0.125)]
        [spE, spH2] = .ok (ab, cv, [spH, spCO, spHe]) ∧
      ab.length = ([spH, spCO, spHe] : List String).length ∧
      (∀ i, i < ([spH, spCO, spHe] : List String).length →
        (∀ v, (([spH, spCO, spHe] : List String).getD i emptyStr, v) ∈
            ([(spCO, 0.25), (spH, 0.125)] : List (String × ℝ)) →
          ab.get? i = some v) ∧
        ((∀ v, (([spH, spCO, spHe] : List String).getD i emptyStr, v) ∉
            ([(spCO, 0.25), (spH, 0.125)] : List (String × ℝ))) →
          ab.get? i = some 0)) ∧
      cv.length = ([spE, spH2] : List String).length ∧
      (∀ j, j < ([spE, spH2] : List String).length →
        cv.get? j = some (if j = 1 then 0.5 else 0)) :=
  C8_initialise_abs_spec [spH, spCO, spHe] [(spCO, 0.25), (spH, 0.125)]
    [spE, spH2] (by decide) (by decide)

/-! ## Claims C4 and C10 -/

theorem npWhereFirst_isSome_iff {F : Type} [DecidableEq F] (t : F) :
    ∀ l : List F, (npWhereFirst t l).isSome ↔ t ∈ l := by
  intro l
  induction l with
  | nil => simp [npWhereFirst]
  | cons x xs ih =>
    by_cases hx : x = t
    · simp [npWhereFirst, hx]
    · rw [npWhereFirst, if_neg hx]
      cases hm : npWhereFirst t xs with
      | none =>
        rw [hm] at ih
        simp at ih
        simp [List.mem_cons, ih]
        intro hcon
        exact hx hcon.symm
      | some j =>
        rw [hm] at ih
        simp at ih
        simp [List.mem_cons, ih]

theorem npWhereFirst_bounds {F : Type} [DecidableEq F] (t : F) :
    ∀ (l : List F) (i : Nat), npWhereFirst t l = some i →
      i < l.length ∧ l.get? i = some t := by
  intro l
  induction l with
  | nil => intro i h; simp [npWhereFirst] at h
  | cons x xs ih =>
    intro i h
    by_cases hx : x = t
    · rw [npWhereFirst, if_pos hx] at h
      injection h with h
      rw [← h]
      exact ⟨by simp, by rw [hx]; rfl⟩
    · rw [npWhereFirst, if_neg hx] at h
      cases hm : npWhereFirst t xs with
      | none => rw [hm] at h; cases h
      | some j =>
        rw [hm] at h
        injection h with h
        obtain ⟨hj, hget⟩ := ih j hm
        rw [← h]
        exact ⟨by simp; omega, hget⟩

theorem npWhereFirst_first {F : Type} [DecidableEq F] (t : F) :
    ∀ (l : List F) (i : Nat), l.get? i = some t →
      (∀ j, j < i → l.get? j ≠ some t) → npWhereFirst t l = some i := by
  intro l
  induction l with
  | nil => intro i h; simp at h
  | cons x xs ih =>
    intro i h hfirst
    cases i with
    | zero =>
      injection h with h
      rw [npWhereFirst, if_pos h]
    | succ i =>
      have hx : x ≠ t := by
        intro hcon
        exact hfirst 0 (by omega) (by rw [hcon]; rfl)
      rw [npWhereFirst, if_neg hx]
      rw [ih i h (fun j hj => hfirst (j + 1) (by omega))]
      rfl

/-- C4: `retrieve_COshielding` misses (raises) exactly when `N_CO` is not an
element of the CO axis or `N_H2` is not an element of the H2 axis; when both
are present (and the table matches its axes, the documented invariant), the
returned value is exactly a grid cell at a matched row/column — no
interpolation or averaging. -/
theorem C4_shielding_exact_lookup {F : Type} [DecidableEq F] (N_CO N_H2 : F)
    (shielding : List (List F)) (CO H2 : List F)
    (hrows : shielding.length = H2.length)
    (hcols : ∀ row ∈ shielding, row.length = CO.length) :
    ((retrieve_COshielding N_CO N_H2 shielding CO H2).isNone ↔
      (N_CO ∉ CO ∨ N_H2 ∉ H2)) ∧
    (∀ v, retrieve_COshielding N_CO N_H2 shielding CO H2 = some v →
      ∃ i j, CO.get? i = some N_CO ∧ H2.get? j = some N_H2 ∧
        (shielding.get? j).bind (fun row => row.get? i) = some v) := by
  cases hco : npWhereFirst N_CO CO with
  | none =>
    have hnotin : N_CO ∉ CO := by
      rw [← npWhereFirst_isSome_iff N_CO CO, hco]
      simp
    constructor
    · simp [retrieve_COshielding, hco, hnotin]
    · intro v hv
      simp [retrieve_COshielding, hco] at hv
  | some iCO =>
    obtain ⟨hiCO_lt, hgetCO⟩ := npWhereFirst_bounds N_CO CO iCO hco
    have hinCO : N_CO ∈ CO := by
      rw [← npWhereFirst_isSome_iff N_CO CO, hco]
      rfl
    cases hh2 : npWhereFirst N_H2 H2 with
    | none =>
      have hnotin : N_H2 ∉ H2 := by
        rw [← npWhereFirst_isSome_iff N_H2 H2, hh2]
        simp
      constructor
      · simp [retrieve_COshielding, hco, hh2, hnotin, hinCO]
      · intro v hv
        simp [retrieve_COshielding, hco, hh2] at hv
    | some iH2 =>
      obtain ⟨hiH2_lt, hgetH2⟩ := npWhereFirst_bounds N_H2 H2 iH2 hh2
      have hinH2 : N_H2 ∈ H2 := by
        rw [← npWhereFirst_isSome_iff N_H2 H2, hh2]
        rfl
      have hrow : ∃ row, shielding.get? iH2 = some row := by
        cases hr : shielding.get? iH2 with
        | none => rw [List.get?_eq_none] at hr; omega
        | some row => exact ⟨row, rfl⟩
      obtain ⟨row, hrow⟩ := hrow
      have hcell : ∃ c, row.get? iCO = some c := by
        have hrl : row.length = CO.length := hcols row (List.get?_mem hrow)
        cases hc : row.get? iCO with
        | none => rw [List.get?_eq_none] at hc; omega
        | some c => exact ⟨c, rfl⟩
      obtain ⟨c, hcell⟩ := hcell
      have hrow' : shielding[iH2]? = some row := by simpa using hrow
      have hcell' : row[iCO]? = some c := by simpa using hcell
      have hres : retrieve_COshielding N_CO N_H2 shielding CO H2 = some c := by
        simp [retrieve_COshielding, hco, hh2, hrow', hcell']
      constructor
      · rw [hres]
        simp [hinCO, hinH2]
      · intro v hv
        rw [hres] at hv
        injection hv with hv
        refine ⟨iCO, iH2, hgetCO, hgetH2, ?_⟩
        rw [hrow]
        show row.get? iCO = some v
        rw [hcell, hv]

/-- Witness for C4 on a 1×2 rational table with axes `CO = [1, 2]`,
`H2 = [3]`. -/
theorem C4_shielding_exact_lookup_witness :
    ((retrieve_COshielding (2:ℚ) 3 [[7, 8]] [1, 2] [3]).isNone ↔
      ((2:ℚ) ∉ ([1, 2] : List ℚ) ∨ (3:ℚ) ∉ ([3] : List ℚ))) ∧
    (∀ v, retrieve_COshielding (2:ℚ) 3 [[7, 8]] [1, 2] [3] = some v →
      ∃ i j, ([1, 2] : List ℚ).get? i = some 2 ∧
        ([3] : List ℚ).get? j = some 3 ∧
        (([[7, 8]] : List (List ℚ)).get? j).bind (fun row => row.get? i) =
          some v) :=
  C4_shielding_exact_lookup 2 3 [[7, 8]] [1, 2] [3] (by decide) (by decide)

/-- C10: when a queried value occurs several times on an axis,
`retrieve_COshielding` uses the first (lowest-index) match on each axis, and
the grid is addressed with the H2 match as the row and the CO match as the
column: the result is `shielding[idx_H2][idx_CO]`. -/
theorem C10_shielding_first_match (F : Type) [DecidableEq F] (N_CO N_H2 : F)
    (shielding : List (List F)) (CO H2 : List F) (i j : Nat)
    (hiCO : CO.get? i = some N_CO)
    (hifirst : ∀ i', i' < i → CO.get? i' ≠ some N_CO)
    (hjH2 : H2.get? j = some N_H2)
    (hjfirst : ∀ j', j' < j → H2.get? j' ≠ some N_H2) :
    retrieve_COshielding N_CO N_H2 shielding CO H2 =
      (shielding.get? j).bind (fun row => row.get? i) := by
  have h1 := npWhereFirst_first N_CO CO i hiCO hifirst
  have h2 := npWhereFirst_first N_H2 H2 j hjH2 hjfirst
  cases hs : shielding.get? j with
  | none =>
    have hs' : shielding[j]? = none := by simpa using hs
    simp [retrieve_COshielding, h1, h2, hs, hs']
  | some row =>
    have hs' : shielding[j]? = some row := by simpa using hs
    simp [retrieve_COshielding, h1, h2, hs, hs']

/-- Witness for C10: `CO = [1, 2, 1]` with `N_CO = 1` matches first at
column 0, `H2 = [5, 6]` with `N_H2 = 6` matches at row 1, and the result is
`shielding[1][0] = 40`. -/
theorem C10_shielding_first_match_witness :
    retrieve_COshielding (1:ℚ) 6 [[10, 20, 30], [40, 50, 60]] [1, 2, 1] [5, 6] =
      (([[10, 20, 30], [40, 50, 60]] : List (List ℚ)).get? 1).bind
        (fun row => row.get? 0) ∧
    retrieve_COshielding (1:ℚ) 6 [[10, 20, 30], [40, 50, 60]] [1, 2, 1] [5, 6] =
      some 40 :=
  ⟨C10_shielding_first_match ℚ 1 6 [[10, 20, 30], [40, 50, 60]] [1, 2, 1] [5, 6]
      0 1 rfl (by omega)
      rfl (by
        intro j' hj'
        have hj0 : j' = 0 := by omega
        rw [hj0]
        decide),
    rfl⟩

end ChemTorch
